import Mathlib

/-!
Verification development for the libheif public API (`libheif/api/libheif/heif.h`)
and its design specification. The repository snapshot contains only the public
header, so behavioural definitions are modelled from the specification text and
the documentation comments in the header; each such definition carries a doc
comment starting `Modelled from the spec:` naming what is missing.
Machine integers are modelled as `Nat` with explicit `% 2^w` where overflow
matters.
-/

/-- The error taxonomy of the design spec (§7). `LimitExceeded` always carries
which limit field tripped. -/
inductive LimitKind where
  | items
  | ilocExtentsPerItem
  | components
  | childrenPerBox
  | imageSizePixels
  | numberOfTiles
  | sizeEntityGroup
  deriving DecidableEq, Repr

inductive HeifError where
  | MalformedInput
  | LimitExceeded (which : LimitKind)
  | NotFound
  | UnsupportedFormat
  | CodecFailure
  | IOFailure
  | Cancelled
  deriving DecidableEq, Repr

/-- The `heif_security_limits` record of `heif.h` (version-2 layout).
Integer fields are modelled as `Nat`; `max_image_size_pixels` is a `uint64_t`
in the header, so writes to it are reduced `% 2^64`. -/
structure heif_security_limits where
  version : Nat
  max_image_size_pixels : Nat
  max_number_of_tiles : Nat
  max_bayer_pattern_pixels : Nat
  max_items : Nat
  max_color_profile_size : Nat
  max_memory_block_size : Nat
  max_components : Nat
  max_iloc_extents_per_item : Nat
  max_size_entity_group : Nat
  max_children_per_box : Nat
  min_memory_margin : Nat
  max_memory_margin : Nat
  max_sample_description_box_entries : Nat
  max_sample_group_description_box_entries : Nat
  deriving DecidableEq, Repr

/-- Modelled from the spec: the implementation of
`heif_context_set_maximum_image_size_limit` is not under `src/`; the header
documents that it sets the maximum image area to `maximum_width ^ 2`, stored
in the `uint64_t` field `max_image_size_pixels`. All other limit fields are
left untouched. -/
def heif_context_set_maximum_image_size_limit
    (limits : heif_security_limits) (maximum_width : Nat) : heif_security_limits :=
  { limits with max_image_size_pixels := (maximum_width * maximum_width) % 2 ^ 64 }

/-- C10: after `heif_context_set_maximum_image_size_limit`, the
`max_image_size_pixels` field equals `maximum_width ^ 2`, computed exactly in
the `uint64_t` field without overflow for every representable width (a C `int`
width is below `2^31`), and no other security-limit field is changed. -/
theorem set_maximum_image_size_limit_spec
    (limits : heif_security_limits) (maximum_width : Nat)
    (hw : maximum_width < 2 ^ 31) :
    (heif_context_set_maximum_image_size_limit limits maximum_width).max_image_size_pixels
        = maximum_width * maximum_width ∧
    (heif_context_set_maximum_image_size_limit limits maximum_width).version = limits.version ∧
    (heif_context_set_maximum_image_size_limit limits maximum_width).max_number_of_tiles
        = limits.max_number_of_tiles ∧
    (heif_context_set_maximum_image_size_limit limits maximum_width).max_bayer_pattern_pixels
        = limits.max_bayer_pattern_pixels ∧
    (heif_context_set_maximum_image_size_limit limits maximum_width).max_items
        = limits.max_items ∧
    (heif_context_set_maximum_image_size_limit limits maximum_width).max_color_profile_size
        = limits.max_color_profile_size ∧
    (heif_context_set_maximum_image_size_limit limits maximum_width).max_memory_block_size
        = limits.max_memory_block_size ∧
    (heif_context_set_maximum_image_size_limit limits maximum_width).max_components
        = limits.max_components ∧
    (heif_context_set_maximum_image_size_limit limits maximum_width).max_iloc_extents_per_item
        = limits.max_iloc_extents_per_item ∧
    (heif_context_set_maximum_image_size_limit limits maximum_width).max_size_entity_group
        = limits.max_size_entity_group ∧
    (heif_context_set_maximum_image_size_limit limits maximum_width).max_children_per_box
        = limits.max_children_per_box ∧
    (heif_context_set_maximum_image_size_limit limits maximum_width).min_memory_margin
        = limits.min_memory_margin ∧
    (heif_context_set_maximum_image_size_limit limits maximum_width).max_memory_margin
        = limits.max_memory_margin ∧
    (heif_context_set_maximum_image_size_limit limits maximum_width).max_sample_description_box_entries
        = limits.max_sample_description_box_entries ∧
    (heif_context_set_maximum_image_size_limit limits maximum_width).max_sample_group_description_box_entries
        = limits.max_sample_group_description_box_entries := by
  refine ⟨?_, rfl, rfl, rfl, rfl, rfl, rfl, rfl, rfl, rfl, rfl, rfl, rfl, rfl, rfl⟩
  show (maximum_width * maximum_width) % 2 ^ 64 = maximum_width * maximum_width
  have h : maximum_width * maximum_width < 2 ^ 64 := by
    calc maximum_width * maximum_width < 2 ^ 31 * 2 ^ 31 :=
          Nat.mul_lt_mul_of_lt_of_lt hw hw
    _ ≤ 2 ^ 64 := by norm_num
  exact Nat.mod_eq_of_lt h

/-- Example limits record used by witnesses. -/
def exampleLimits : heif_security_limits :=
  { version := 2
    max_image_size_pixels := 32768 * 32768
    max_number_of_tiles := 4096 * 4096
    max_bayer_pattern_pixels := 16384 * 16384
    max_items := 1000
    max_color_profile_size := 100000000
    max_memory_block_size := 4294967296
    max_components := 256
    max_iloc_extents_per_item := 32
    max_size_entity_group := 64
    max_children_per_box := 100
    min_memory_margin := 1073741824
    max_memory_margin := 4294967296
    max_sample_description_box_entries := 1024
    max_sample_group_description_box_entries := 1024 }

/-- Witness for C10 at a concrete width. -/
theorem set_maximum_image_size_limit_spec_witness :
    (heif_context_set_maximum_image_size_limit exampleLimits 32768).max_image_size_pixels
        = 32768 * 32768 ∧
    (heif_context_set_maximum_image_size_limit exampleLimits 32768).max_items
        = exampleLimits.max_items := by
  have h := set_maximum_image_size_limit_spec exampleLimits 32768 (by norm_num)
  exact ⟨h.1, h.2.2.2.2.1⟩

/-- Modelled from the spec: the disabled-limits record returned by
`heif_get_disabled_security_limits` (implementation not under `src/`); a limit
value of zero means "unlimited" for that field, so all fields are zero. -/
def heif_get_disabled_security_limits : heif_security_limits :=
  { version := 2
    max_image_size_pixels := 0
    max_number_of_tiles := 0
    max_bayer_pattern_pixels := 0
    max_items := 0
    max_color_profile_size := 0
    max_memory_block_size := 0
    max_components := 0
    max_iloc_extents_per_item := 0
    max_size_entity_group := 0
    max_children_per_box := 0
    min_memory_margin := 0
    max_memory_margin := 0
    max_sample_description_box_entries := 0
    max_sample_group_description_box_entries := 0 }

/-- The limits-guard check of spec §4.3: a limit of `0` means "unlimited",
otherwise the demanded amount must not exceed the limit. -/
def limitAllows (limit n : Nat) : Bool := limit == 0 || n ≤ limit

/-- An `infe` item-info entry (spec §3, Item). -/
structure ItemInfoEntry where
  item_id : Nat
  item_type : Nat
  hidden : Bool
  deriving DecidableEq, Repr

/-- An `iloc` item-location entry: byte-range extents per item (spec §3). -/
structure ItemLocationEntry where
  item_id : Nat
  extents : List (Nat × Nat)
  deriving DecidableEq, Repr

/-- An `iref` typed edge (spec §3, ItemReference). -/
structure ItemReference where
  relation_type : Nat
  fromItem : Nat
  toItems : List Nat
  deriving DecidableEq, Repr

/-- The metadata demands a file makes on the item-graph builder. -/
structure FileMeta where
  itemInfoEntries : List ItemInfoEntry
  locationEntries : List ItemLocationEntry
  referenceEntries : List ItemReference
  deriving DecidableEq, Repr

/-- The construction passes of spec §4.4, in order. -/
inductive GraphPass where
  | infoPass
  | locPass
  | refPass
  deriving DecidableEq, Repr

/-- Modelled from the spec: pass (1) of §4.4 (implementation not under `src/`):
item stubs are allocated one at a time, and before each allocation the
would-be item count is checked against `max_items`; exceeding it fails with
`LimitExceeded` naming the items limit, carrying the items allocated so far. -/
def parseItemInfoEntries (limits : heif_security_limits) :
    List ItemInfoEntry → List ItemInfoEntry →
    Except (HeifError × List ItemInfoEntry) (List ItemInfoEntry)
  | [], acc => .ok acc
  | e :: rest, acc =>
      if limitAllows limits.max_items (acc.length + 1) then
        parseItemInfoEntries limits rest (acc ++ [e])
      else
        .error (.LimitExceeded .items, acc)

/-- Modelled from the spec: pass (2) of §4.4 (implementation not under `src/`):
each item's extent list must obey `max_iloc_extents_per_item`. -/
def parseLocationEntries (limits : heif_security_limits) :
    List ItemLocationEntry → Except HeifError (List ItemLocationEntry)
  | [] => .ok []
  | e :: rest =>
      if limitAllows limits.max_iloc_extents_per_item e.extents.length then
        match parseLocationEntries limits rest with
        | .ok r => .ok (e :: r)
        | .error err => .error err
      else
        .error (.LimitExceeded .ilocExtentsPerItem)

/-- Modelled from the spec: pass (4) of §4.4 (implementation not under `src/`):
the number of reference entries iterated from the file is checked against the
`max_children_per_box` limit. -/
def parseReferenceEntries (limits : heif_security_limits) (refs : List ItemReference) :
    Except HeifError (List ItemReference) :=
  if limitAllows limits.max_children_per_box refs.length then .ok refs
  else .error (.LimitExceeded .childrenPerBox)

/-- The finalized item graph (spec §3/§4.4). -/
structure ItemGraph where
  items : List ItemInfoEntry
  locations : List ItemLocationEntry
  references : List ItemReference
  deriving DecidableEq, Repr

/-- Modelled from the spec: the item-graph builder of §4.4 (implementation not
under `src/`) runs the passes in order and is fail-fast: a failing pass aborts
construction and later passes are not run. The second component records which
passes were entered. -/
def buildItemGraph (limits : heif_security_limits) (file : FileMeta) :
    Except HeifError ItemGraph × List GraphPass :=
  match parseItemInfoEntries limits file.itemInfoEntries [] with
  | .error (e, _) => (.error e, [.infoPass])
  | .ok items =>
    match parseLocationEntries limits file.locationEntries with
    | .error e => (.error e, [.infoPass, .locPass])
    | .ok locs =>
      match parseReferenceEntries limits file.referenceEntries with
      | .error e => (.error e, [.infoPass, .locPass, .refPass])
      | .ok refs => (.ok ⟨items, locs, refs⟩, [.infoPass, .locPass, .refPass])

/-- Setting one limit field to the disabled sentinel `0`. -/
def disableLimit (kind : LimitKind) (limits : heif_security_limits) : heif_security_limits :=
  match kind with
  | .items => { limits with max_items := 0 }
  | .ilocExtentsPerItem => { limits with max_iloc_extents_per_item := 0 }
  | .components => { limits with max_components := 0 }
  | .childrenPerBox => { limits with max_children_per_box := 0 }
  | .imageSizePixels => { limits with max_image_size_pixels := 0 }
  | .numberOfTiles => { limits with max_number_of_tiles := 0 }
  | .sizeEntityGroup => { limits with max_size_entity_group := 0 }

/-- Modelled from the spec: the process-wide default limits returned by
`heif_get_global_security_limits` (implementation not under `src/`). The spec
fixes only that every default is finite, i.e. no field uses the disabled
sentinel `0`; the concrete numbers are representative. -/
def heif_get_global_security_limits : heif_security_limits := exampleLimits

theorem parseItemInfoEntries_ok (limits : heif_security_limits) :
    ∀ (es acc : List ItemInfoEntry),
    (limits.max_items = 0 ∨ acc.length + es.length ≤ limits.max_items) →
    parseItemInfoEntries limits es acc = .ok (acc ++ es) := by
  intro es
  induction es with
  | nil => intro acc _; simp [parseItemInfoEntries]
  | cons e rest ih =>
      intro acc hle
      have hcond : limitAllows limits.max_items (acc.length + 1) = true := by
        simp only [limitAllows, Bool.or_eq_true, beq_iff_eq, decide_eq_true_eq]
        rcases hle with h0 | h1
        · exact Or.inl h0
        · right; simp at h1; omega
      simp only [parseItemInfoEntries, hcond, if_true]
      have := ih (acc ++ [e]) (by rcases hle with h0 | h1
                                  · exact Or.inl h0
                                  · right; simp at h1 ⊢; omega)
      rw [this]; simp

theorem parseItemInfoEntries_err (limits : heif_security_limits) :
    ∀ (es acc : List ItemInfoEntry),
    limits.max_items ≠ 0 →
    limits.max_items < acc.length + es.length →
    acc.length ≤ limits.max_items →
    ∃ p, parseItemInfoEntries limits es acc = .error (.LimitExceeded .items, p) ∧
      p.length ≤ limits.max_items := by
  intro es
  induction es with
  | nil => intro acc _ hlt hle; simp at hlt; omega
  | cons e rest ih =>
      intro acc hne hlt hle
      by_cases hfit : acc.length + 1 ≤ limits.max_items
      · have hcond : limitAllows limits.max_items (acc.length + 1) = true := by
          simp only [limitAllows, Bool.or_eq_true, beq_iff_eq, decide_eq_true_eq]
          exact Or.inr hfit
        simp only [parseItemInfoEntries, hcond, if_true]
        exact ih (acc ++ [e]) hne (by simp at hlt ⊢; omega) (by simpa using hfit)
      · have hcond : limitAllows limits.max_items (acc.length + 1) = false := by
          simp only [limitAllows, Bool.or_eq_false_iff, beq_eq_false_iff_ne,
            decide_eq_false_iff_not]
          exact ⟨hne, hfit⟩
        simp only [parseItemInfoEntries, hcond, if_false, Bool.false_eq_true]
        exact ⟨acc, rfl, hle⟩

theorem parseItemInfoEntries_err_kind (limits : heif_security_limits) :
    ∀ (es acc : List ItemInfoEntry) (e : HeifError) (p : List ItemInfoEntry),
    parseItemInfoEntries limits es acc = .error (e, p) →
    e = .LimitExceeded .items := by
  intro es
  induction es with
  | nil => intro acc e p h; simp [parseItemInfoEntries] at h
  | cons x rest ih =>
      intro acc e p h
      by_cases hcond : limitAllows limits.max_items (acc.length + 1) = true
      · simp only [parseItemInfoEntries, hcond, if_true] at h
        exact ih (acc ++ [x]) e p h
      · simp only [parseItemInfoEntries, hcond, if_false] at h
        exact (Prod.mk.injEq _ _ _ _ ▸ (Except.error.injEq _ _ ▸ h)).1.symm ▸ rfl

theorem parseItemInfoEntries_congr (L L2 : heif_security_limits)
    (hm : L.max_items = L2.max_items) :
    ∀ (es acc : List ItemInfoEntry),
    parseItemInfoEntries L es acc = parseItemInfoEntries L2 es acc := by
  intro es
  induction es with
  | nil => intro acc; simp [parseItemInfoEntries]
  | cons e rest ih => intro acc; simp only [parseItemInfoEntries, hm, ih]

theorem parseLocationEntries_err_kind (limits : heif_security_limits) :
    ∀ (es : List ItemLocationEntry) (e : HeifError),
    parseLocationEntries limits es = .error e →
    e = .LimitExceeded .ilocExtentsPerItem := by
  intro es
  induction es with
  | nil => intro e h; simp [parseLocationEntries] at h
  | cons x rest ih =>
      intro e h
      by_cases hcond : limitAllows limits.max_iloc_extents_per_item x.extents.length = true
      · simp only [parseLocationEntries, hcond, if_true] at h
        cases hrec : parseLocationEntries limits rest with
        | ok r => rw [hrec] at h; simp at h
        | error err => rw [hrec] at h; simp at h; exact h ▸ ih err hrec
      · simp only [parseLocationEntries, hcond, if_false] at h
        simp at h; exact h.symm

theorem parseLocationEntries_ok (limits : heif_security_limits) :
    ∀ (es : List ItemLocationEntry),
    (∀ x ∈ es, limitAllows limits.max_iloc_extents_per_item x.extents.length = true) →
    parseLocationEntries limits es = .ok es := by
  intro es
  induction es with
  | nil => intro _; simp [parseLocationEntries]
  | cons x rest ih =>
      intro hall
      have hx := hall x (List.mem_cons_self x rest)
      simp only [parseLocationEntries, hx, if_true]
      rw [ih (fun y hy => hall y (List.mem_cons_of_mem x hy))]

theorem parseLocationEntries_congr (L L2 : heif_security_limits)
    (hm : L.max_iloc_extents_per_item = L2.max_iloc_extents_per_item) :
    ∀ (es : List ItemLocationEntry),
    parseLocationEntries L es = parseLocationEntries L2 es := by
  intro es
  induction es with
  | nil => simp [parseLocationEntries]
  | cons e rest ih => simp only [parseLocationEntries, hm, ih]

theorem parseLocationEntries_disabled (limits : heif_security_limits)
    (h0 : limits.max_iloc_extents_per_item = 0) (es : List ItemLocationEntry) :
    parseLocationEntries limits es = .ok es := by
  apply parseLocationEntries_ok
  intro x _
  simp [limitAllows, h0]

theorem parseReferenceEntries_err_kind (limits : heif_security_limits)
    (refs : List ItemReference) (e : HeifError)
    (h : parseReferenceEntries limits refs = .error e) :
    e = .LimitExceeded .childrenPerBox := by
  by_cases hcond : limitAllows limits.max_children_per_box refs.length = true
  · simp [parseReferenceEntries, hcond] at h
  · simp [parseReferenceEntries, hcond] at h
    exact h.symm

theorem parseLocationEntries_ok_inv (limits : heif_security_limits) :
    ∀ (es locs : List ItemLocationEntry),
    parseLocationEntries limits es = .ok locs →
    locs = es ∧
      ∀ e ∈ es, limitAllows limits.max_iloc_extents_per_item e.extents.length = true := by
  intro es
  induction es with
  | nil =>
      intro locs h
      simp only [parseLocationEntries] at h
      injection h with h2
      refine ⟨h2.symm, ?_⟩
      intro e he
      simp at he
  | cons x rest ih =>
      intro locs h
      by_cases hcond : limitAllows limits.max_iloc_extents_per_item x.extents.length = true
      · simp only [parseLocationEntries, hcond, if_true] at h
        cases hrec : parseLocationEntries limits rest with
        | ok r =>
            rw [hrec] at h
            simp only at h
            injection h with h2
            obtain ⟨ih1, ih2⟩ := ih r hrec
            refine ⟨h2.symm.trans (by rw [ih1]), ?_⟩
            intro e he
            rcases List.mem_cons.mp he with he | he
            · exact he ▸ hcond
            · exact ih2 e he
        | error err =>
            rw [hrec] at h
            simp at h
      · simp only [parseLocationEntries, hcond, if_false] at h
        simp at h

theorem parseLocationEntries_err_of_exists (limits : heif_security_limits)
    (es : List ItemLocationEntry)
    (hne : limits.max_iloc_extents_per_item ≠ 0)
    (hex : ∃ e ∈ es, limits.max_iloc_extents_per_item < e.extents.length) :
    parseLocationEntries limits es = .error (.LimitExceeded .ilocExtentsPerItem) := by
  cases hres : parseLocationEntries limits es with
  | ok locs =>
      exfalso
      obtain ⟨e, hmem, hgt⟩ := hex
      have hall := (parseLocationEntries_ok_inv limits es locs hres).2 e hmem
      simp only [limitAllows, Bool.or_eq_true, beq_iff_eq, decide_eq_true_eq] at hall
      rcases hall with h0 | hle
      · exact hne h0
      · omega
  | error err =>
      have hk := parseLocationEntries_err_kind limits es err hres
      rw [hk]

/-- C2: for every security-limit field the modelled construction passes
consult (`max_items`, `max_iloc_extents_per_item`, `max_children_per_box`),
an input requiring more than a finite limit `k` fails with `LimitExceeded`
naming exactly that limit and subsequent construction passes are not run;
construction never materializes more than `k` units of the limited resource
(at most `k` item stubs are allocated at an items failure, and a finalized
pass never contains an over-limit entry); and every failure of the builder is
a `LimitExceeded` identifying which limit tripped. -/
theorem max_items_limit_exceeded (limits : heif_security_limits) (file : FileMeta) :
    (limits.max_items ≠ 0 → limits.max_items < file.itemInfoEntries.length →
      (buildItemGraph limits file).1 = .error (.LimitExceeded .items) ∧
      (buildItemGraph limits file).2 = [.infoPass] ∧
      GraphPass.locPass ∉ (buildItemGraph limits file).2 ∧
      GraphPass.refPass ∉ (buildItemGraph limits file).2 ∧
      (∀ p, parseItemInfoEntries limits file.itemInfoEntries []
          = .error (.LimitExceeded .items, p) → p.length ≤ limits.max_items)) ∧
    (limits.max_iloc_extents_per_item ≠ 0 →
      (∃ e ∈ file.locationEntries,
        limits.max_iloc_extents_per_item < e.extents.length) →
      (limits.max_items = 0 ∨ file.itemInfoEntries.length ≤ limits.max_items) →
      (buildItemGraph limits file).1 = .error (.LimitExceeded .ilocExtentsPerItem) ∧
      (buildItemGraph limits file).2 = [.infoPass, .locPass] ∧
      GraphPass.refPass ∉ (buildItemGraph limits file).2) ∧
    (limits.max_children_per_box ≠ 0 →
      limits.max_children_per_box < file.referenceEntries.length →
      (limits.max_items = 0 ∨ file.itemInfoEntries.length ≤ limits.max_items) →
      (∀ e ∈ file.locationEntries,
        limitAllows limits.max_iloc_extents_per_item e.extents.length = true) →
      (buildItemGraph limits file).1 = .error (.LimitExceeded .childrenPerBox)) ∧
    (∀ locs, parseLocationEntries limits file.locationEntries = .ok locs →
      ∀ e ∈ locs, limits.max_iloc_extents_per_item = 0 ∨
        e.extents.length ≤ limits.max_iloc_extents_per_item) ∧
    (∀ refs2, parseReferenceEntries limits file.referenceEntries = .ok refs2 →
      limits.max_children_per_box = 0 ∨
        refs2.length ≤ limits.max_children_per_box) ∧
    (∀ e, (buildItemGraph limits file).1 = .error e →
      ∃ kind, e = HeifError.LimitExceeded kind) := by
  refine ⟨?_, ?_, ?_, ?_, ?_, ?_⟩
  · intro hk hover
    obtain ⟨p, hp, hplen⟩ :=
      parseItemInfoEntries_err limits file.itemInfoEntries [] hk (by simpa using hover)
        (by simp)
    refine ⟨by simp [buildItemGraph, hp], by simp [buildItemGraph, hp],
      by simp [buildItemGraph, hp], by simp [buildItemGraph, hp], ?_⟩
    intro q hq
    rw [hp] at hq
    have hpq : p = q := by
      have := (Except.error.injEq _ _ ▸ hq)
      exact (Prod.mk.injEq _ _ _ _ ▸ this).2
    exact hpq ▸ hplen
  · intro hne hex hfit
    have hinfo : parseItemInfoEntries limits file.itemInfoEntries []
        = .ok file.itemInfoEntries := by
      have := parseItemInfoEntries_ok limits file.itemInfoEntries []
        (by rcases hfit with h0 | h1
            · exact Or.inl h0
            · right; simpa using h1)
      simpa using this
    have hloc := parseLocationEntries_err_of_exists limits file.locationEntries hne hex
    exact ⟨by simp [buildItemGraph, hinfo, hloc], by simp [buildItemGraph, hinfo, hloc],
      by simp [buildItemGraph, hinfo, hloc]⟩
  · intro hne hover hfit hall
    have hinfo : parseItemInfoEntries limits file.itemInfoEntries []
        = .ok file.itemInfoEntries := by
      have := parseItemInfoEntries_ok limits file.itemInfoEntries []
        (by rcases hfit with h0 | h1
            · exact Or.inl h0
            · right; simpa using h1)
      simpa using this
    have hloc := parseLocationEntries_ok limits file.locationEntries hall
    have hcond : limitAllows limits.max_children_per_box file.referenceEntries.length
        = false := by
      simp only [limitAllows, Bool.or_eq_false_iff, beq_eq_false_iff_ne,
        decide_eq_false_iff_not]
      exact ⟨hne, by omega⟩
    have href : parseReferenceEntries limits file.referenceEntries
        = .error (.LimitExceeded .childrenPerBox) := by
      simp [parseReferenceEntries, hcond]
    simp [buildItemGraph, hinfo, hloc, href]
  · intro locs hok e hmem
    obtain ⟨hlocs, hall⟩ := parseLocationEntries_ok_inv limits file.locationEntries locs hok
    have hmem2 : e ∈ file.locationEntries := hlocs ▸ hmem
    have := hall e hmem2
    simp only [limitAllows, Bool.or_eq_true, beq_iff_eq, decide_eq_true_eq] at this
    exact this
  · intro refs2 hok
    by_cases hcond : limitAllows limits.max_children_per_box
        file.referenceEntries.length = true
    · simp only [parseReferenceEntries, hcond, if_true] at hok
      injection hok with h2
      simp only [limitAllows, Bool.or_eq_true, beq_iff_eq, decide_eq_true_eq] at hcond
      rcases hcond with h0 | hle
      · exact Or.inl h0
      · right
        rw [← h2]
        exact hle
    · simp only [parseReferenceEntries, hcond, if_false] at hok
      simp at hok
  · intro e he
    unfold buildItemGraph at he
    cases hinfo : parseItemInfoEntries limits file.itemInfoEntries [] with
    | error ep =>
        rw [hinfo] at he
        simp at he
        obtain ⟨e1, p1⟩ := ep
        have := parseItemInfoEntries_err_kind limits file.itemInfoEntries [] e1 p1 hinfo
        exact ⟨.items, by rw [← he]; exact this⟩
    | ok items =>
        rw [hinfo] at he
        cases hloc : parseLocationEntries limits file.locationEntries with
        | error e2 =>
            rw [hloc] at he
            simp at he
            exact ⟨.ilocExtentsPerItem, by
              rw [← he]; exact parseLocationEntries_err_kind limits file.locationEntries e2 hloc⟩
        | ok locs =>
            rw [hloc] at he
            cases href : parseReferenceEntries limits file.referenceEntries with
            | error e3 =>
                rw [href] at he
                simp at he
                exact ⟨.childrenPerBox, by
                  rw [← he]
                  exact parseReferenceEntries_err_kind limits file.referenceEntries e3 href⟩
            | ok refs => rw [href] at he; simp at he

/-- Limits with `max_items = 10`, otherwise the global defaults. -/
def tenItemLimits : heif_security_limits :=
  { exampleLimits with max_items := 10 }

/-- A file declaring eleven item-info entries and nothing else. -/
def elevenItemFile : FileMeta :=
  { itemInfoEntries := (List.range 11).map (fun i => { item_id := i + 1, item_type := 0, hidden := false })
    locationEntries := []
    referenceEntries := [] }

/-- Limits with `max_iloc_extents_per_item = 2`, otherwise the global
defaults. -/
def twoExtentLimits : heif_security_limits :=
  { exampleLimits with max_iloc_extents_per_item := 2 }

/-- A file whose single location entry declares three extents. -/
def threeExtentFile : FileMeta :=
  { itemInfoEntries := []
    locationEntries := [{ item_id := 1, extents := [(0, 1), (1, 1), (2, 1)] }]
    referenceEntries := [] }

/-- Limits with `max_children_per_box = 2`, otherwise the global defaults. -/
def twoRefLimits : heif_security_limits :=
  { exampleLimits with max_children_per_box := 2 }

/-- A file declaring three reference entries and nothing else. -/
def threeRefFile : FileMeta :=
  { itemInfoEntries := []
    locationEntries := []
    referenceEntries := [{ relation_type := 1, fromItem := 1, toItems := [2] },
      { relation_type := 1, fromItem := 1, toItems := [3] },
      { relation_type := 1, fromItem := 1, toItems := [4] }] }

/-- Witness for C2: `max_items = 10` with eleven declared item-info entries,
`max_iloc_extents_per_item = 2` with a three-extent entry, and
`max_children_per_box = 2` with three reference entries. -/
theorem max_items_limit_exceeded_witness :
    (buildItemGraph tenItemLimits elevenItemFile).1 = .error (.LimitExceeded .items) ∧
    (buildItemGraph tenItemLimits elevenItemFile).2 = [.infoPass] ∧
    (buildItemGraph twoExtentLimits threeExtentFile).1
      = .error (.LimitExceeded .ilocExtentsPerItem) ∧
    (buildItemGraph twoExtentLimits threeExtentFile).2 = [.infoPass, .locPass] ∧
    (buildItemGraph twoRefLimits threeRefFile).1
      = .error (.LimitExceeded .childrenPerBox) := by
  have h1 := (max_items_limit_exceeded tenItemLimits elevenItemFile).1
    (by decide) (by decide)
  have h2 := (max_items_limit_exceeded twoExtentLimits threeExtentFile).2.1
    (by decide) (by decide) (by decide)
  have h3 := (max_items_limit_exceeded twoRefLimits threeRefFile).2.2.1
    (by decide) (by decide) (by decide) (by decide)
  exact ⟨h1.1, h1.2.1, h2.1, h2.2.1, h3⟩

/-- C3: a limit value of `0` is the disabled sentinel meaning "unlimited":
after setting a previously-tripped limit field to `0`, re-feeding an input
that was rejected for exceeding that field either succeeds or fails with
`LimitExceeded` naming a different limit, never the disabled one; and the
default (global) session limits are all finite (no field is `0`). -/
theorem disabled_limit_sentinel (limits : heif_security_limits) (file : FileMeta)
    (kind : LimitKind)
    (h : (buildItemGraph limits file).1 = .error (.LimitExceeded kind)) :
    ((∃ g, (buildItemGraph (disableLimit kind limits) file).1 = .ok g) ∨
      (∃ kind2, kind2 ≠ kind ∧
        (buildItemGraph (disableLimit kind limits) file).1
          = .error (.LimitExceeded kind2))) ∧
    (heif_get_global_security_limits.max_image_size_pixels ≠ 0 ∧
      heif_get_global_security_limits.max_number_of_tiles ≠ 0 ∧
      heif_get_global_security_limits.max_bayer_pattern_pixels ≠ 0 ∧
      heif_get_global_security_limits.max_items ≠ 0 ∧
      heif_get_global_security_limits.max_color_profile_size ≠ 0 ∧
      heif_get_global_security_limits.max_memory_block_size ≠ 0 ∧
      heif_get_global_security_limits.max_components ≠ 0 ∧
      heif_get_global_security_limits.max_iloc_extents_per_item ≠ 0 ∧
      heif_get_global_security_limits.max_size_entity_group ≠ 0 ∧
      heif_get_global_security_limits.max_children_per_box ≠ 0 ∧
      heif_get_global_security_limits.min_memory_margin ≠ 0 ∧
      heif_get_global_security_limits.max_memory_margin ≠ 0 ∧
      heif_get_global_security_limits.max_sample_description_box_entries ≠ 0 ∧
      heif_get_global_security_limits.max_sample_group_description_box_entries ≠ 0) := by
  constructor
  · cases hinfo : parseItemInfoEntries limits file.itemInfoEntries [] with
    | error ep =>
        obtain ⟨e1, p1⟩ := ep
        have hkind : e1 = .LimitExceeded .items :=
          parseItemInfoEntries_err_kind limits file.itemInfoEntries [] e1 p1 hinfo
        have hk : kind = .items := by
          unfold buildItemGraph at h
          rw [hinfo] at h
          simp at h
          rw [hkind] at h
          exact (HeifError.LimitExceeded.injEq _ _ ▸ h.symm)
        subst hk
        have hinfo2 : parseItemInfoEntries (disableLimit .items limits)
            file.itemInfoEntries [] = .ok file.itemInfoEntries := by
          have := parseItemInfoEntries_ok (disableLimit .items limits)
            file.itemInfoEntries [] (Or.inl rfl)
          simpa using this
        cases hloc : parseLocationEntries (disableLimit .items limits) file.locationEntries with
        | error e2 =>
            right
            refine ⟨.ilocExtentsPerItem, by decide, ?_⟩
            have he2 := parseLocationEntries_err_kind _ _ _ hloc
            simp [buildItemGraph, hinfo2, hloc, he2]
        | ok locs =>
            cases href : parseReferenceEntries (disableLimit .items limits)
                file.referenceEntries with
            | error e3 =>
                right
                refine ⟨.childrenPerBox, by decide, ?_⟩
                have he3 := parseReferenceEntries_err_kind _ _ _ href
                simp [buildItemGraph, hinfo2, hloc, href, he3]
            | ok refs =>
                left
                exact ⟨⟨file.itemInfoEntries, locs, refs⟩, by
                  simp [buildItemGraph, hinfo2, hloc, href]⟩
    | ok items =>
        unfold buildItemGraph at h
        rw [hinfo] at h
        cases hloc : parseLocationEntries limits file.locationEntries with
        | error e2 =>
            rw [hloc] at h
            simp at h
            have he2 := parseLocationEntries_err_kind _ _ _ hloc
            have hk : kind = .ilocExtentsPerItem := by
              rw [he2] at h
              exact (HeifError.LimitExceeded.injEq _ _ ▸ h.symm)
            subst hk
            have hinfo2 : parseItemInfoEntries (disableLimit .ilocExtentsPerItem limits)
                file.itemInfoEntries [] = .ok items := by
              rw [parseItemInfoEntries_congr (disableLimit .ilocExtentsPerItem limits)
                limits rfl]
              exact hinfo
            have hloc2 := parseLocationEntries_disabled
              (disableLimit .ilocExtentsPerItem limits) rfl file.locationEntries
            cases href : parseReferenceEntries (disableLimit .ilocExtentsPerItem limits)
                file.referenceEntries with
            | error e3 =>
                right
                refine ⟨.childrenPerBox, by decide, ?_⟩
                have he3 := parseReferenceEntries_err_kind _ _ _ href
                simp [buildItemGraph, hinfo2, hloc2, href, he3]
            | ok refs =>
                left
                exact ⟨⟨items, file.locationEntries, refs⟩, by
                  simp [buildItemGraph, hinfo2, hloc2, href]⟩
        | ok locs =>
            rw [hloc] at h
            cases href : parseReferenceEntries limits file.referenceEntries with
            | ok refs => rw [href] at h; simp at h
            | error e3 =>
                rw [href] at h
                simp at h
                have he3 := parseReferenceEntries_err_kind _ _ _ href
                have hk : kind = .childrenPerBox := by
                  rw [he3] at h
                  exact (HeifError.LimitExceeded.injEq _ _ ▸ h.symm)
                subst hk
                have hinfo2 : parseItemInfoEntries (disableLimit .childrenPerBox limits)
                    file.itemInfoEntries [] = .ok items := by
                  rw [parseItemInfoEntries_congr (disableLimit .childrenPerBox limits)
                    limits rfl]
                  exact hinfo
                have hloc2 : parseLocationEntries (disableLimit .childrenPerBox limits)
                    file.locationEntries = .ok locs := by
                  rw [parseLocationEntries_congr (disableLimit .childrenPerBox limits)
                    limits rfl]
                  exact hloc
                have href2 : parseReferenceEntries (disableLimit .childrenPerBox limits)
                    file.referenceEntries = .ok file.referenceEntries := by
                  have h0 : (disableLimit .childrenPerBox limits).max_children_per_box = 0 := rfl
                  simp [parseReferenceEntries, limitAllows, h0]
                left
                exact ⟨⟨items, locs, file.referenceEntries⟩, by
                  simp [buildItemGraph, hinfo2, hloc2, href2]⟩
  · refine ⟨?_, ?_, ?_, ?_, ?_, ?_, ?_, ?_, ?_, ?_, ?_, ?_, ?_, ?_⟩ <;> decide

/-- Witness for C3: the input of the C2 scenario, re-fed after disabling the
items limit, now succeeds. -/
theorem disabled_limit_sentinel_witness :
    ((∃ g, (buildItemGraph (disableLimit .items tenItemLimits) elevenItemFile).1 = .ok g) ∨
      (∃ kind2, kind2 ≠ LimitKind.items ∧
        (buildItemGraph (disableLimit .items tenItemLimits) elevenItemFile).1
          = .error (.LimitExceeded kind2))) ∧
    (heif_get_global_security_limits.max_image_size_pixels ≠ 0 ∧
      heif_get_global_security_limits.max_number_of_tiles ≠ 0 ∧
      heif_get_global_security_limits.max_bayer_pattern_pixels ≠ 0 ∧
      heif_get_global_security_limits.max_items ≠ 0 ∧
      heif_get_global_security_limits.max_color_profile_size ≠ 0 ∧
      heif_get_global_security_limits.max_memory_block_size ≠ 0 ∧
      heif_get_global_security_limits.max_components ≠ 0 ∧
      heif_get_global_security_limits.max_iloc_extents_per_item ≠ 0 ∧
      heif_get_global_security_limits.max_size_entity_group ≠ 0 ∧
      heif_get_global_security_limits.max_children_per_box ≠ 0 ∧
      heif_get_global_security_limits.min_memory_margin ≠ 0 ∧
      heif_get_global_security_limits.max_memory_margin ≠ 0 ∧
      heif_get_global_security_limits.max_sample_description_box_entries ≠ 0 ∧
      heif_get_global_security_limits.max_sample_group_description_box_entries ≠ 0) :=
  disabled_limit_sentinel tenItemLimits elevenItemFile .items (by rfl)

/-- The `heif_image_tiling` descriptor of `heif.h` (version-1 layout). The
C array `extra_dimension_size[8]` is modelled as a list. -/
structure heif_image_tiling where
  version : Nat
  num_columns : Nat
  num_rows : Nat
  tile_width : Nat
  tile_height : Nat
  image_width : Nat
  image_height : Nat
  top_offset : Nat
  left_offset : Nat
  number_of_extra_dimensions : Nat
  extra_dimension_size : List Nat
  deriving DecidableEq, Repr

/-- Modelled from the spec: one axis of grid composition (§4.5 step 3; the
composition engine is not under `src/`). Along an axis with tile size `w`,
axis offset `off` (the negative shift of the top-left tile) and canvas extent
`canvas`, the tile with index `i` occupies, in canvas coordinates, the
intersection of `[i*w - off, (i+1)*w - off)` with `[0, canvas)`; `visibleLen`
is the length of that intersection, so tiles that overshoot the canvas are
cropped to it. -/
def visibleLen (w off canvas i : Nat) : Nat :=
  min ((i + 1) * w - off) canvas - (i * w - off)

/-- Modelled from the spec: the composed canvas width is the total visible
span of one row of tiles, tile by tile (§4.5 step 3). -/
def composedWidth (t : heif_image_tiling) : Nat :=
  (Finset.range t.num_columns).sum (fun c => visibleLen t.tile_width t.left_offset t.image_width c)

/-- Modelled from the spec: the composed canvas height is the total visible
span of one column of tiles, tile by tile (§4.5 step 3). -/
def composedHeight (t : heif_image_tiling) : Nat :=
  (Finset.range t.num_rows).sum (fun r => visibleLen t.tile_height t.top_offset t.image_height r)

theorem visibleLen_le (w off canvas i : Nat) : visibleLen w off canvas i ≤ w := by
  have h1 : (i + 1) * w = i * w + w := by ring
  simp only [visibleLen]
  omega

theorem sum_visibleLen (w off canvas : Nat) :
    ∀ n, (Finset.range n).sum (visibleLen w off canvas) = min (n * w - off) canvas := by
  intro n
  induction n with
  | zero => simp
  | succ n ih =>
      rw [Finset.sum_range_succ, ih]
      have h1 : (n + 1) * w = n * w + w := by ring
      simp only [visibleLen]
      omega

/-- The 2×2 grid of 512×512 tiles on a declared 1000×1000 canvas with
offsets (0,0). -/
def gridScenario : heif_image_tiling :=
  { version := 1
    num_columns := 2
    num_rows := 2
    tile_width := 512
    tile_height := 512
    image_width := 1000
    image_height := 1000
    top_offset := 0
    left_offset := 0
    number_of_extra_dimensions := 0
    extra_dimension_size := [] }

/-- A 1×2 grid of 100×50 tiles on a declared 200×50 canvas: one row, two
columns. -/
def gridOneRowTwoCols : heif_image_tiling :=
  { version := 1
    num_columns := 2
    num_rows := 1
    tile_width := 100
    tile_height := 50
    image_width := 200
    image_height := 50
    top_offset := 0
    left_offset := 0
    number_of_extra_dimensions := 0
    extra_dimension_size := [] }

/-- C1 counterexample: for the 1×2 grid of 100×50 tiles on a 200×50 canvas,
the composed width is 200, not `min(rows*tile_width, canvas_width) = 100` as
the claim's formula states: the claim swaps the roles of rows and columns. -/
theorem grid_claim_formula_counterexample :
    ¬ (composedWidth gridOneRowTwoCols =
        min (gridOneRowTwoCols.num_rows * gridOneRowTwoCols.tile_width)
          gridOneRowTwoCols.image_width ∧
      composedHeight gridOneRowTwoCols =
        min (gridOneRowTwoCols.num_columns * gridOneRowTwoCols.tile_height)
          gridOneRowTwoCols.image_height) := by
  decide

/-- C1 (amended): for every grid tiling, the composed canvas has
`width = min(columns*tile_width - left_offset, canvas_width)` and
`height = min(rows*tile_height - top_offset, canvas_height)`; composition
never enlarges a tile (every tile's visible span is at most the tile size);
and for the 2×2 grid of four 512×512 tiles with declared canvas 1000×1000 and
offset (0,0), the composed output is 1000×1000 with the first row/column tile
spanning 512 pixels and the last row/column tile cropped from 512 to 488. -/
theorem grid_composition_spec (t : heif_image_tiling) :
    composedWidth t = min (t.num_columns * t.tile_width - t.left_offset) t.image_width ∧
    composedHeight t = min (t.num_rows * t.tile_height - t.top_offset) t.image_height ∧
    (∀ c, visibleLen t.tile_width t.left_offset t.image_width c ≤ t.tile_width) ∧
    (∀ r, visibleLen t.tile_height t.top_offset t.image_height r ≤ t.tile_height) ∧
    composedWidth gridScenario = 1000 ∧
    composedHeight gridScenario = 1000 ∧
    visibleLen gridScenario.tile_width gridScenario.left_offset gridScenario.image_width 0
      = 512 ∧
    visibleLen gridScenario.tile_width gridScenario.left_offset gridScenario.image_width 1
      = 488 ∧
    visibleLen gridScenario.tile_height gridScenario.top_offset gridScenario.image_height 0
      = 512 ∧
    visibleLen gridScenario.tile_height gridScenario.top_offset gridScenario.image_height 1
      = 488 := by
  refine ⟨sum_visibleLen _ _ _ _, sum_visibleLen _ _ _ _,
    fun c => visibleLen_le _ _ _ _, fun r => visibleLen_le _ _ _ _,
    ?_, ?_, ?_, ?_, ?_, ?_⟩ <;> decide

/-- Big-endian value of a byte list (spec §6: 4-byte size, optional 64-bit
extended size). -/
def beVal (bs : List Nat) : Nat := bs.foldl (fun acc b => acc * 256 + b) 0

/-- Big-endian 4-byte encoding of a 32-bit value. -/
def natToBe32 (n : Nat) : List Nat :=
  [n / 16777216 % 256, n / 65536 % 256, n / 256 % 256, n % 256]

/-- Big-endian 8-byte encoding of a 64-bit value. -/
def natToBe64 (n : Nat) : List Nat :=
  [n / 72057594037927936 % 256, n / 281474976710656 % 256,
   n / 1099511627776 % 256, n / 4294967296 % 256,
   n / 16777216 % 256, n / 65536 % 256, n / 256 % 256, n % 256]

theorem natToBe32_beVal (bs : List Nat) (hlen : bs.length = 4)
    (hvalid : ∀ x ∈ bs, x < 256) : natToBe32 (beVal bs) = bs := by
  match bs, hlen with
  | [a, b, c, d], _ =>
      have ha := hvalid a (by simp)
      have hb := hvalid b (by simp)
      have hc := hvalid c (by simp)
      have hd := hvalid d (by simp)
      simp only [beVal, List.foldl, natToBe32, List.cons.injEq, and_true]
      refine ⟨?_, ?_, ?_, ?_⟩ <;> omega

theorem natToBe64_beVal (bs : List Nat) (hlen : bs.length = 8)
    (hvalid : ∀ x ∈ bs, x < 256) : natToBe64 (beVal bs) = bs := by
  match bs, hlen with
  | [a, b, c, d, e, f, g, h], _ =>
      have ha := hvalid a (by simp)
      have hb := hvalid b (by simp)
      have hc := hvalid c (by simp)
      have hd := hvalid d (by simp)
      have he := hvalid e (by simp)
      have hf := hvalid f (by simp)
      have hg := hvalid g (by simp)
      have hh := hvalid h (by simp)
      simp only [beVal, List.foldl, natToBe64, List.cons.injEq, and_true]
      refine ⟨?_, ?_, ?_, ?_, ?_, ?_, ?_, ?_⟩ <;> omega

/-- A tokenized box (spec §4.2/§3): FourCC type bytes, whether the 64-bit
extended-size form was used, and the opaque payload slice. Container children
are part of the opaque payload, matching the lazy Box Reader, which does not
materialize children until visited. -/
structure ParsedBox where
  boxtype : List Nat
  largesize : Bool
  payload : List Nat
  deriving DecidableEq, Repr

/-- Modelled from the spec: serialization of one box for `heif_context_write`
(implementation not under `src/`): 4-byte size, 4-byte FourCC, payload;
or, when the 32-bit size field signals "read more" with the value 1, the 64-bit
extended size follows the type (spec §6 container/box binary layout). -/
def serializeBox (b : ParsedBox) : List Nat :=
  if b.largesize then
    natToBe32 1 ++ b.boxtype ++ natToBe64 (b.payload.length + 16) ++ b.payload
  else
    natToBe32 (b.payload.length + 8) ++ b.boxtype ++ b.payload

/-- Serialization of a top-level box sequence. -/
def serializeBoxes (bs : List ParsedBox) : List Nat :=
  bs.foldr (fun b acc => serializeBox b ++ acc) []

/-- Modelled from the spec: the Box Reader header tokenizer of §4.2
(implementation not under `src/`): read the 8-or-16-byte header, validate
`size >= header length` and that the declared size fits the remaining range,
and yield the box positioned at its payload together with the rest of the
stream. -/
def parseBox (bs : List Nat) : Option (ParsedBox × List Nat) :=
  if bs.length < 8 then none
  else if beVal (bs.take 4) = 1 then
    if bs.length < 16 then none
    else if beVal ((bs.drop 8).take 8) < 16 ∨ bs.length < beVal ((bs.drop 8).take 8) then none
    else some (⟨(bs.drop 4).take 4, true,
        (bs.drop 16).take (beVal ((bs.drop 8).take 8) - 16)⟩,
      bs.drop (beVal ((bs.drop 8).take 8)))
  else if beVal (bs.take 4) < 8 ∨ bs.length < beVal (bs.take 4) then none
  else some (⟨(bs.drop 4).take 4, false,
      (bs.drop 8).take (beVal (bs.take 4) - 8)⟩,
    bs.drop (beVal (bs.take 4)))

/-- Modelled from the spec: the top-level box-sequence tokenizer used by
`heif_context_read_from_memory_without_copy` (implementation not under
`src/`); fuelled recursion, one unit of fuel per box. -/
def parseBoxesFuel : Nat → List Nat → Option (List ParsedBox)
  | _, [] => some []
  | 0, _ => none
  | fuel + 1, b :: rest0 =>
      match parseBox (b :: rest0) with
      | none => none
      | some (box, rest) =>
          match parseBoxesFuel fuel rest with
          | none => none
          | some l => some (box :: l)

/-- Parsing an in-memory stream into its top-level boxes. One byte per box is
always enough fuel, since every box consumes at least eight bytes. -/
def heif_parse_boxes (bs : List Nat) : Option (List ParsedBox) :=
  parseBoxesFuel bs.length bs

theorem parseBox_spec (bs : List Nat) (box : ParsedBox) (rest : List Nat)
    (hvalid : ∀ x ∈ bs, x < 256)
    (h : parseBox bs = some (box, rest)) :
    serializeBox box ++ rest = bs := by
  unfold parseBox at h
  by_cases h8 : bs.length < 8
  · rw [if_pos h8] at h; exact absurd h (by simp)
  rw [if_neg h8] at h
  push_neg at h8
  by_cases hL : beVal (bs.take 4) = 1
  · rw [if_pos hL] at h
    by_cases h16 : bs.length < 16
    · rw [if_pos h16] at h; exact absurd h (by simp)
    rw [if_neg h16] at h
    push_neg at h16
    by_cases hbad : beVal ((bs.drop 8).take 8) < 16 ∨ bs.length < beVal ((bs.drop 8).take 8)
    · rw [if_pos hbad] at h; exact absurd h (by simp)
    rw [if_neg hbad] at h
    push_neg at hbad
    obtain ⟨hs16, hslen⟩ := hbad
    simp only [Option.some.injEq, Prod.mk.injEq] at h
    obtain ⟨hbox, hrest⟩ := h
    subst hbox
    subst hrest
    have hplen : ((bs.drop 16).take (beVal ((bs.drop 8).take 8) - 16)).length
        = beVal ((bs.drop 8).take 8) - 16 := by
      rw [List.length_take, List.length_drop]
      omega
    simp only [serializeBox, if_pos, hplen]
    have h1 : natToBe32 1 = bs.take 4 := by
      rw [← hL]
      exact natToBe32_beVal _ (by rw [List.length_take]; omega)
        (fun x hx => hvalid x (List.mem_of_mem_take hx))
    have hadd : beVal ((bs.drop 8).take 8) - 16 + 16 = beVal ((bs.drop 8).take 8) := by
      omega
    have h2 : natToBe64 (beVal ((bs.drop 8).take 8) - 16 + 16) = (bs.drop 8).take 8 := by
      rw [hadd]
      exact natToBe64_beVal _ (by rw [List.length_take, List.length_drop]; omega)
        (fun x hx => hvalid x (List.mem_of_mem_drop (List.mem_of_mem_take hx)))
    rw [h1, h2]
    have e1 : (bs.drop 16).take (beVal ((bs.drop 8).take 8) - 16)
        ++ bs.drop (beVal ((bs.drop 8).take 8)) = bs.drop 16 := by
      have hdd : bs.drop (beVal ((bs.drop 8).take 8))
          = (bs.drop 16).drop (beVal ((bs.drop 8).take 8) - 16) := by
        rw [List.drop_drop]
        congr 1
        omega
      rw [hdd, List.take_append_drop]
    have e2 : (bs.drop 8).take 8 ++ bs.drop 16 = bs.drop 8 := by
      have hdd : bs.drop 16 = (bs.drop 8).drop 8 := by rw [List.drop_drop]
      rw [hdd, List.take_append_drop]
    have e3 : (bs.drop 4).take 4 ++ bs.drop 8 = bs.drop 4 := by
      have hdd : bs.drop 8 = (bs.drop 4).drop 4 := by rw [List.drop_drop]
      rw [hdd, List.take_append_drop]
    simp only [List.append_assoc]
    rw [e1, e2, e3, List.take_append_drop]
  · rw [if_neg hL] at h
    by_cases hbad : beVal (bs.take 4) < 8 ∨ bs.length < beVal (bs.take 4)
    · rw [if_pos hbad] at h; exact absurd h (by simp)
    rw [if_neg hbad] at h
    push_neg at hbad
    obtain ⟨hs8, hslen⟩ := hbad
    simp only [Option.some.injEq, Prod.mk.injEq] at h
    obtain ⟨hbox, hrest⟩ := h
    subst hbox
    subst hrest
    have hplen : ((bs.drop 8).take (beVal (bs.take 4) - 8)).length
        = beVal (bs.take 4) - 8 := by
      rw [List.length_take, List.length_drop]
      omega
    simp only [serializeBox, Bool.false_eq_true, if_false, hplen]
    have hadd : beVal (bs.take 4) - 8 + 8 = beVal (bs.take 4) := by omega
    have h1 : natToBe32 (beVal (bs.take 4) - 8 + 8) = bs.take 4 := by
      rw [hadd]
      exact natToBe32_beVal _ (by rw [List.length_take]; omega)
        (fun x hx => hvalid x (List.mem_of_mem_take hx))
    rw [h1]
    have e1 : (bs.drop 8).take (beVal (bs.take 4) - 8)
        ++ bs.drop (beVal (bs.take 4)) = bs.drop 8 := by
      have hdd : bs.drop (beVal (bs.take 4))
          = (bs.drop 8).drop (beVal (bs.take 4) - 8) := by
        rw [List.drop_drop]
        congr 1
        omega
      rw [hdd, List.take_append_drop]
    have e3 : (bs.drop 4).take 4 ++ bs.drop 8 = bs.drop 4 := by
      have hdd : bs.drop 8 = (bs.drop 4).drop 4 := by rw [List.drop_drop]
      rw [hdd, List.take_append_drop]
    simp only [List.append_assoc]
    rw [e1, e3, List.take_append_drop]

theorem parseBoxesFuel_roundtrip (fuel : Nat) :
    ∀ (bs : List Nat) (boxes : List ParsedBox),
    (∀ x ∈ bs, x < 256) →
    parseBoxesFuel fuel bs = some boxes →
    serializeBoxes boxes = bs := by
  induction fuel with
  | zero =>
      intro bs boxes hvalid h
      cases bs with
      | nil =>
          simp only [parseBoxesFuel, Option.some.injEq] at h
          subst h
          rfl
      | cons b t => simp [parseBoxesFuel] at h
  | succ fuel ih =>
      intro bs boxes hvalid h
      cases bs with
      | nil =>
          simp only [parseBoxesFuel, Option.some.injEq] at h
          subst h
          rfl
      | cons b t =>
          simp only [parseBoxesFuel] at h
          cases hp : parseBox (b :: t) with
          | none => rw [hp] at h; simp at h
          | some pr =>
              obtain ⟨box, rest⟩ := pr
              rw [hp] at h
              simp only at h
              cases hr : parseBoxesFuel fuel rest with
              | none => rw [hr] at h; simp at h
              | some l =>
                  rw [hr] at h
                  simp only [Option.some.injEq] at h
                  subst h
                  have hser := parseBox_spec (b :: t) box rest hvalid hp
                  have hrest_valid : ∀ x ∈ rest, x < 256 := by
                    intro x hx
                    apply hvalid
                    rw [← hser]
                    exact List.mem_append_right _ hx
                  have htail := ih rest l hrest_valid hr
                  show serializeBox box ++ serializeBoxes l = b :: t
                  rw [htail]
                  exact hser

/-- C4: for every valid in-memory box stream (a byte list the tokenizer
accepts), parsing it into its top-level box sequence and re-serializing the
unmodified sequence yields output byte-identical to the original stream. -/
theorem box_stream_roundtrip (bs : List Nat) (boxes : List ParsedBox)
    (hvalid : ∀ x ∈ bs, x < 256)
    (hparse : heif_parse_boxes bs = some boxes) :
    serializeBoxes boxes = bs :=
  parseBoxesFuel_roundtrip bs.length bs boxes hvalid hparse

/-- A concrete two-box stream: an `ftyp` box with major brand `heic`, followed
by an `mdat` box written in the 64-bit extended-size form. -/
def exampleBoxStream : List Nat :=
  [0, 0, 0, 16, 102, 116, 121, 112, 104, 101, 105, 99, 0, 0, 0, 0,
   0, 0, 0, 1, 109, 100, 97, 116, 0, 0, 0, 0, 0, 0, 0, 17, 42]

/-- Witness for C4 on the concrete two-box stream. -/
theorem box_stream_roundtrip_witness :
    serializeBoxes
      [{ boxtype := [102, 116, 121, 112], largesize := false,
         payload := [104, 101, 105, 99, 0, 0, 0, 0] },
       { boxtype := [109, 100, 97, 116], largesize := true, payload := [42] }]
      = exampleBoxStream :=
  box_stream_roundtrip exampleBoxStream _ (by decide) (by decide)

/-- The `heif_reader_grow_status` enum of `heif.h`, including the deprecated
timeout value. -/
inductive heif_reader_grow_status where
  | size_reached
  | timeout
  | size_beyond_eof
  | error_status
  deriving DecidableEq, Repr

/-- The `heif_reader_range_request_result` struct of `heif.h`. The error
message pointer is modelled as the reader-specific error code only. -/
structure heif_reader_range_request_result where
  status : heif_reader_grow_status
  range_end : Nat
  reader_error_code : Nat
  deriving DecidableEq, Repr

/-- Modelled from the spec: `wait_for_file_size` of the fixed in-memory
stream source (§4.1/§9: plain in-memory sources trivially report always
available; a reader must at least detect a target beyond the fixed length). -/
def memoryWaitForFileSize (fileSize target : Nat) : heif_reader_grow_status :=
  if target ≤ fileSize then .size_reached else .size_beyond_eof

/-- Modelled from the spec: `request_range` of the fixed in-memory stream
source; `range_end` reports the end of the valid part of the range
(implementation not under `src/`; the header documents that the status should
never be the deprecated timeout value). -/
def memoryRequestRange (fileSize start_pos end_pos : Nat) : heif_reader_range_request_result :=
  { status := memoryWaitForFileSize fileSize end_pos
    range_end := min end_pos fileSize
    reader_error_code := start_pos - start_pos }

/-- C5: every result produced through the growth/range interface of the
stream source is one of the three statuses size_reached, size_beyond_eof or
error; in particular the status field of a `request_range` result is never
the deprecated `heif_reader_grow_status_timeout`. -/
theorem request_range_never_timeout (fileSize start_pos end_pos target : Nat) :
    (memoryRequestRange fileSize start_pos end_pos).status ≠ .timeout ∧
    ((memoryRequestRange fileSize start_pos end_pos).status = .size_reached ∨
      (memoryRequestRange fileSize start_pos end_pos).status = .size_beyond_eof ∨
      (memoryRequestRange fileSize start_pos end_pos).status = .error_status) ∧
    memoryWaitForFileSize fileSize target ≠ .timeout ∧
    (memoryWaitForFileSize fileSize target = .size_reached ∨
      memoryWaitForFileSize fileSize target = .size_beyond_eof ∨
      memoryWaitForFileSize fileSize target = .error_status) := by
  unfold memoryRequestRange memoryWaitForFileSize
  by_cases h : end_pos ≤ fileSize <;> by_cases h2 : target ≤ fileSize <;> simp [h, h2]

/-- A growing stream source (spec §4.1): `knownLen` bytes are currently
available and the file will eventually have `finalSize` bytes. -/
structure GrowingSource where
  knownLen : Nat
  finalSize : Nat
  deriving DecidableEq, Repr

/-- Modelled from the spec: the blocking `wait_for_file_size` of a growing
source: it blocks until the file has grown to `target` (size_reached), or
reports size_beyond_eof when the file will never reach `target`. -/
def waitForFileSize (src : GrowingSource) (target : Nat) : heif_reader_grow_status :=
  if target ≤ src.finalSize then .size_reached else .size_beyond_eof

/-- Actions the engine performs against the stream source, in order. -/
inductive StreamAction where
  | waitAction (target : Nat)
  | readAction (start len : Nat)
  deriving DecidableEq, Repr

/-- Modelled from the spec: reading one item-location extent (§4.1/§4.4; the
engine is not under `src/`). The extent end is first checked against the
source's currently-known available length; if insufficient, the source is
asked to extend (a grow wait) before any read; the read is attempted only
once the bytes are available, and the operation fails `IOFailure` exactly
when the source reports size_beyond_eof for that range. The second component
is the trace of source actions. -/
def readExtent (src : GrowingSource) (start len : Nat) :
    Except HeifError Unit × List StreamAction :=
  if start + len ≤ src.knownLen then
    (.ok (), [.readAction start len])
  else
    match waitForFileSize src (start + len) with
    | .size_reached => (.ok (), [.waitAction (start + len), .readAction start len])
    | _ => (.error .IOFailure, [.waitAction (start + len)])

/-- C6: an extent whose end exceeds the currently known length triggers a
grow wait as the first source action; the read fails `IOFailure` exactly when
the source reports size_beyond_eof for that range; and no read action is
issued without the bytes being available, either within the known length or
after a wait for exactly the extent's range. -/
theorem extent_read_gated (src : GrowingSource) (start len : Nat)
    (hgrow : src.knownLen ≤ src.finalSize) :
    (src.knownLen < start + len →
      (readExtent src start len).2.head? = some (.waitAction (start + len))) ∧
    ((readExtent src start len).1 = .error .IOFailure ↔
      waitForFileSize src (start + len) = .size_beyond_eof) ∧
    (∀ s l, StreamAction.readAction s l ∈ (readExtent src start len).2 →
      s + l ≤ src.knownLen ∨
        ((readExtent src start len).2 = [.waitAction (s + l), .readAction s l] ∧
          s + l ≤ src.finalSize)) ∧
    ((readExtent src start len).1 = .ok () ↔ start + len ≤ src.finalSize) := by
  unfold readExtent waitForFileSize
  by_cases hk : start + len ≤ src.knownLen
  · rw [if_pos hk]
    refine ⟨fun hlt => absurd hk (by omega), by simp [if_pos (by omega : start + len ≤ src.finalSize)], ?_, by simp; omega⟩
    intro s l hmem
    simp at hmem
    obtain ⟨hs, hl⟩ := hmem
    subst hs
    subst hl
    exact Or.inl hk
  · rw [if_neg hk]
    by_cases hf : start + len ≤ src.finalSize
    · rw [if_pos hf]
      refine ⟨fun _ => rfl, by simp [if_pos hf], ?_, by simp [hf]⟩
      intro s l hmem
      simp at hmem
      obtain ⟨hs, hl⟩ := hmem
      subst hs
      subst hl
      exact Or.inr ⟨by simp [if_pos hf], hf⟩
    · rw [if_neg hf]
      refine ⟨fun _ => rfl, by simp [if_neg hf], ?_, by simp [hf]⟩
      intro s l hmem
      simp [if_neg hf] at hmem

/-- Witness for C6: a source with 10 known of 20 final bytes and the extent
[5, 15): the engine waits first, and the read succeeds without IOFailure. -/
theorem extent_read_gated_witness :
    (readExtent ⟨10, 20⟩ 5 10).2.head? = some (.waitAction 15) ∧
    ((readExtent ⟨10, 20⟩ 5 10).1 = .ok () ↔ (5 + 10 : Nat) ≤ (20 : Nat)) := by
  have h := extent_read_gated ⟨10, 20⟩ 5 10 (by decide)
  exact ⟨h.1 (by decide), h.2.2.2⟩

/-- A tile raster in the composed canvas: either decoded pixels or the
placeholder fill used for a downgraded tile failure. -/
inductive TileRaster where
  | decoded (tileId : Nat)
  | placeholder
  deriving DecidableEq, Repr

/-- The behaviour-relevant fields of `heif_decoding_options` from `heif.h`
(progress and cancellation callbacks and colour-conversion options are
omitted). -/
structure heif_decoding_options where
  version : Nat
  ignore_transformations : Bool
  convert_hdr_to_8bit : Bool
  strict_decoding : Bool
  deriving DecidableEq, Repr

/-- Modelled from the spec: the defaults filled in by
`heif_decoding_options_alloc` (implementation not under `src/`): the header
documents that transformations are not ignored by default and that the
default for `strict_decoding` is non-strict. -/
def heif_decoding_options_alloc : heif_decoding_options :=
  { version := 7
    ignore_transformations := false
    convert_hdr_to_8bit := false
    strict_decoding := false }

/-- A non-fatal warning attached to an overall successful result (spec §7). -/
structure DecodeWarning where
  tileIndex : Nat
  err : HeifError
  deriving DecidableEq, Repr

/-- Modelled from the spec: grid-composition tile handling (§4.5 step 3 and
§7; the composition engine is not under `src/`). Tile decode results are
merged in order; with strict decoding any tile failure aborts the grid; in
the non-strict (best-effort) mode an individual tile's `CodecFailure` or
`IOFailure` is downgraded to a placeholder tile plus a non-fatal warning,
while any other failure — in particular `LimitExceeded` — always aborts. -/
def composeTiles (strict : Bool) (idx : Nat) :
    List (Except HeifError TileRaster) →
    Except HeifError (List TileRaster × List DecodeWarning)
  | [] => .ok ([], [])
  | .ok tr :: rest =>
      match composeTiles strict (idx + 1) rest with
      | .ok (ts, ws) => .ok (tr :: ts, ws)
      | .error e => .error e
  | .error e :: rest =>
      if strict then .error e
      else if e = .CodecFailure ∨ e = .IOFailure then
        match composeTiles strict (idx + 1) rest with
        | .ok (ts, ws) => .ok (.placeholder :: ts, ⟨idx, e⟩ :: ws)
        | .error e2 => .error e2
      else .error e

/-- C7 counterexample: the header documents that the default decoding mode is
non-strict, so best-effort tile handling is the default rather than an
opt-in: with default options a tile `CodecFailure` does not abort the grid
but yields a placeholder plus a warning on a successful result. -/
theorem best_effort_not_opt_in_counterexample :
    heif_decoding_options_alloc.strict_decoding = false ∧
    composeTiles heif_decoding_options_alloc.strict_decoding 0
        [.ok (.decoded 1), .error .CodecFailure]
      = .ok ([.decoded 1, .placeholder], [{ tileIndex := 1, err := .CodecFailure }]) ∧
    ∀ e : HeifError,
      composeTiles heif_decoding_options_alloc.strict_decoding 0
          [.ok (.decoded 1), .error .CodecFailure] ≠ .error e := by
  refine ⟨rfl, rfl, ?_⟩
  intro e h
  have h2 : composeTiles heif_decoding_options_alloc.strict_decoding 0
      [.ok (.decoded 1), .error .CodecFailure]
      = .ok ([.decoded 1, .placeholder], [{ tileIndex := 1, err := .CodecFailure }]) := rfl
  rw [h2] at h
  exact absurd h (by simp)

theorem composeTiles_limit_aborts (strict : Bool) :
    ∀ (results : List (Except HeifError TileRaster)) (idx : Nat) (k : LimitKind),
    Except.error (HeifError.LimitExceeded k) ∈ results →
    ∃ e, composeTiles strict idx results = .error e := by
  intro results
  induction results with
  | nil => intro idx k hmem; simp at hmem
  | cons r rest ih =>
      intro idx k hmem
      cases r with
      | ok tr =>
          have hmem2 : Except.error (HeifError.LimitExceeded k) ∈ rest := by
            simp at hmem
            exact hmem
          obtain ⟨e, he⟩ := ih (idx + 1) k hmem2
          show (∃ e2, (match composeTiles strict (idx + 1) rest with
            | .ok (ts, ws) => Except.ok (tr :: ts, ws)
            | .error e => .error e) = Except.error e2)
          rw [he]
          exact ⟨e, rfl⟩
      | error e0 =>
          by_cases hs : strict = true
          · exact ⟨e0, by simp [composeTiles, hs]⟩
          · have hs2 : strict = false := by simp at hs; exact hs
            subst hs2
            by_cases hde : e0 = HeifError.CodecFailure ∨ e0 = HeifError.IOFailure
            · have hmem2 : Except.error (HeifError.LimitExceeded k) ∈ rest := by
                simp at hmem
                rcases hmem with h1 | h1
                · exfalso
                  rcases hde with h2 | h2 <;> rw [h2] at h1 <;> simp at h1
                · exact h1
              obtain ⟨e, he⟩ := ih (idx + 1) k hmem2
              show (∃ e2, (if False = true then Except.error e0
                else if e0 = .CodecFailure ∨ e0 = .IOFailure then
                  match composeTiles false (idx + 1) rest with
                  | .ok (ts, ws) => Except.ok (TileRaster.placeholder :: ts,
                      { tileIndex := idx, err := e0 } :: ws)
                  | .error e2 => Except.error e2
                else Except.error e0) = Except.error e2)
              rw [if_neg (by simp), if_pos hde, he]
              exact ⟨e, rfl⟩
            · exact ⟨e0, by
                show (if False = true then Except.error e0
                  else if e0 = .CodecFailure ∨ e0 = .IOFailure then
                    match composeTiles false (idx + 1) rest with
                    | .ok (ts, ws) => Except.ok (TileRaster.placeholder :: ts,
                        { tileIndex := idx, err := e0 } :: ws)
                    | .error e2 => Except.error e2
                  else Except.error e0) = Except.error e0
                rw [if_neg (by simp), if_neg hde]⟩

theorem composeTiles_strict_ok_iff :
    ∀ (results : List (Except HeifError TileRaster)) (idx : Nat),
    (∃ out, composeTiles true idx results = .ok out) ↔ ∀ r ∈ results, ∃ t, r = .ok t := by
  intro results
  induction results with
  | nil =>
      intro idx
      constructor
      · intro _ r hr; simp at hr
      · intro _; exact ⟨([], []), rfl⟩
  | cons r rest ih =>
      intro idx
      cases r with
      | ok tr =>
          cases hrec : composeTiles true (idx + 1) rest with
          | ok out0 =>
              obtain ⟨ts, ws⟩ := out0
              have hcur : composeTiles true idx (.ok tr :: rest) = .ok (tr :: ts, ws) := by
                simp [composeTiles, hrec]
              constructor
              · intro _ r hr
                rcases List.mem_cons.mp hr with hr | hr
                · exact ⟨tr, hr⟩
                · exact ((ih (idx + 1)).mp ⟨(ts, ws), hrec⟩) r hr
              · intro _
                exact ⟨(tr :: ts, ws), hcur⟩
          | error e =>
              have hcur : composeTiles true idx (.ok tr :: rest) = .error e := by
                simp [composeTiles, hrec]
              constructor
              · rintro ⟨out, hout⟩
                rw [hcur] at hout
                simp at hout
              · intro hall
                exfalso
                obtain ⟨out, hout⟩ := (ih (idx + 1)).mpr
                  (fun r hr => hall r (List.mem_cons_of_mem _ hr))
                rw [hout] at hrec
                simp at hrec
      | error e =>
          have hcur : composeTiles true idx (.error e :: rest) = .error e := by
            simp [composeTiles]
          constructor
          · rintro ⟨out, hout⟩
            rw [hcur] at hout
            simp at hout
          · intro hall
            obtain ⟨t, ht⟩ := hall (.error e) (List.mem_cons_self _ _)
            simp at ht

theorem composeTiles_nonstrict_ok_iff :
    ∀ (results : List (Except HeifError TileRaster)) (idx : Nat),
    (∃ out, composeTiles false idx results = .ok out) ↔
      ∀ e, Except.error e ∈ results →
        e = HeifError.CodecFailure ∨ e = HeifError.IOFailure := by
  intro results
  induction results with
  | nil =>
      intro idx
      constructor
      · intro _ e he; simp at he
      · intro _; exact ⟨([], []), rfl⟩
  | cons r rest ih =>
      intro idx
      cases r with
      | ok tr =>
          cases hrec : composeTiles false (idx + 1) rest with
          | ok out0 =>
              obtain ⟨ts, ws⟩ := out0
              have hcur : composeTiles false idx (.ok tr :: rest) = .ok (tr :: ts, ws) := by
                simp [composeTiles, hrec]
              constructor
              · intro _ e he
                rcases List.mem_cons.mp he with he | he
                · simp at he
                · exact ((ih (idx + 1)).mp ⟨(ts, ws), hrec⟩) e he
              · intro _
                exact ⟨(tr :: ts, ws), hcur⟩
          | error e2 =>
              have hcur : composeTiles false idx (.ok tr :: rest) = .error e2 := by
                simp [composeTiles, hrec]
              constructor
              · rintro ⟨out, hout⟩
                rw [hcur] at hout
                simp at hout
              · intro hall
                exfalso
                obtain ⟨out, hout⟩ := (ih (idx + 1)).mpr
                  (fun e he => hall e (List.mem_cons_of_mem _ he))
                rw [hout] at hrec
                simp at hrec
      | error e0 =>
          by_cases hde : e0 = HeifError.CodecFailure ∨ e0 = HeifError.IOFailure
          · cases hrec : composeTiles false (idx + 1) rest with
            | ok out0 =>
                obtain ⟨ts, ws⟩ := out0
                have hcur : composeTiles false idx (.error e0 :: rest)
                    = .ok (.placeholder :: ts, ⟨idx, e0⟩ :: ws) := by
                  simp [composeTiles, hde, hrec]
                constructor
                · intro _ e he
                  rcases List.mem_cons.mp he with he | he
                  · have he2 : e = e0 := by simpa using he
                    exact he2 ▸ hde
                  · exact ((ih (idx + 1)).mp ⟨(ts, ws), hrec⟩) e he
                · intro _
                  exact ⟨(.placeholder :: ts, ⟨idx, e0⟩ :: ws), hcur⟩
            | error e2 =>
                have hcur : composeTiles false idx (.error e0 :: rest) = .error e2 := by
                  simp [composeTiles, hde, hrec]
                constructor
                · rintro ⟨out, hout⟩
                  rw [hcur] at hout
                  simp at hout
                · intro hall
                  exfalso
                  obtain ⟨out, hout⟩ := (ih (idx + 1)).mpr
                    (fun e he => hall e (List.mem_cons_of_mem _ he))
                  rw [hout] at hrec
                  simp at hrec
          · have hcur : composeTiles false idx (.error e0 :: rest) = .error e0 := by
              simp [composeTiles, hde]
            constructor
            · rintro ⟨out, hout⟩
              rw [hcur] at hout
              simp at hout
            · intro hall
              exact absurd (hall e0 (List.mem_cons_self _ _)) hde

theorem composeTiles_ok_lengths (strict : Bool) :
    ∀ (results : List (Except HeifError TileRaster)) (idx : Nat)
      (ts : List TileRaster) (ws : List DecodeWarning),
    composeTiles strict idx results = .ok (ts, ws) →
    ts.length = results.length ∧
    ws.length = results.countP
      (fun r => match r with | .error _ => true | .ok _ => false) := by
  intro results
  induction results with
  | nil =>
      intro idx ts ws h
      simp [composeTiles] at h
      obtain ⟨h1, h2⟩ := h
      simp [← h1, ← h2]
  | cons r rest ih =>
      intro idx ts ws h
      cases r with
      | ok tr =>
          cases hrec : composeTiles strict (idx + 1) rest with
          | ok out0 =>
              obtain ⟨ts0, ws0⟩ := out0
              have hcur : composeTiles strict idx (.ok tr :: rest) = .ok (tr :: ts0, ws0) := by
                simp [composeTiles, hrec]
              rw [hcur] at h
              injection h with hpair
              have h1 : tr :: ts0 = ts := congrArg Prod.fst hpair
              have h2 : ws0 = ws := congrArg Prod.snd hpair
              obtain ⟨ih1, ih2⟩ := ih (idx + 1) ts0 ws0 hrec
              subst h1
              subst h2
              simp [List.countP_cons, ih1, ih2]
          | error e =>
              have hcur : composeTiles strict idx (.ok tr :: rest) = .error e := by
                simp [composeTiles, hrec]
              rw [hcur] at h
              simp at h
      | error e0 =>
          by_cases hs : strict = true
          · subst hs
            have hcur : composeTiles true idx (.error e0 :: rest) = .error e0 := by
              simp [composeTiles]
            rw [hcur] at h
            simp at h
          · have hs2 : strict = false := by simp at hs; exact hs
            subst hs2
            by_cases hde : e0 = HeifError.CodecFailure ∨ e0 = HeifError.IOFailure
            · cases hrec : composeTiles false (idx + 1) rest with
              | ok out0 =>
                  obtain ⟨ts0, ws0⟩ := out0
                  have hcur : composeTiles false idx (.error e0 :: rest)
                      = .ok (.placeholder :: ts0, ⟨idx, e0⟩ :: ws0) := by
                    simp [composeTiles, hde, hrec]
                  rw [hcur] at h
                  injection h with hpair
                  have h1 : TileRaster.placeholder :: ts0 = ts := congrArg Prod.fst hpair
                  have h2 : ({ tileIndex := idx, err := e0 } : DecodeWarning) :: ws0 = ws :=
                    congrArg Prod.snd hpair
                  obtain ⟨ih1, ih2⟩ := ih (idx + 1) ts0 ws0 hrec
                  subst h1
                  subst h2
                  simp [List.countP_cons, ih1, ih2]
              | error e2 =>
                  have hcur : composeTiles false idx (.error e0 :: rest) = .error e2 := by
                    simp [composeTiles, hde, hrec]
                  rw [hcur] at h
                  simp at h
            · have hcur : composeTiles false idx (.error e0 :: rest) = .error e0 := by
                simp [composeTiles, hde]
              rw [hcur] at h
              simp at h

/-- C7 (amended): with strict decoding enabled, any tile failure aborts the
whole grid; in the default non-strict (best-effort) mode — the header
documents that non-strict is the default, so best-effort handling is not an
opt-in — an individual tile's `CodecFailure` or `IOFailure` is downgraded to
a placeholder-filled grid position plus a non-fatal warning attached to an
overall successful result (one tile raster per grid position, one warning per
failed tile), and a tile failure with `LimitExceeded` is never downgraded
this way: it aborts the operation regardless of the strictness setting. -/
theorem tile_failure_handling (idx : Nat)
    (results : List (Except HeifError TileRaster)) :
    (∀ (strict : Bool) (k : LimitKind),
      Except.error (HeifError.LimitExceeded k) ∈ results →
      ∃ e, composeTiles strict idx results = .error e) ∧
    ((∃ out, composeTiles true idx results = .ok out) ↔
      ∀ r ∈ results, ∃ t, r = .ok t) ∧
    ((∃ out, composeTiles false idx results = .ok out) ↔
      ∀ e, Except.error e ∈ results →
        e = HeifError.CodecFailure ∨ e = HeifError.IOFailure) ∧
    (∀ (strict : Bool) (ts : List TileRaster) (ws : List DecodeWarning),
      composeTiles strict idx results = .ok (ts, ws) →
      ts.length = results.length ∧
      ws.length = results.countP
        (fun r => match r with | .error _ => true | .ok _ => false)) ∧
    heif_decoding_options_alloc.strict_decoding = false :=
  ⟨fun strict k h => composeTiles_limit_aborts strict results idx k h,
    composeTiles_strict_ok_iff results idx,
    composeTiles_nonstrict_ok_iff results idx,
    fun strict ts ws h => composeTiles_ok_lengths strict results idx ts ws h,
    rfl⟩

/-- Witness for C7: a lone LimitExceeded tile aborts even in non-strict mode,
while a lone CodecFailure tile yields a successful best-effort result. -/
theorem tile_failure_handling_witness :
    (∃ e, composeTiles false 0
        [Except.error (HeifError.LimitExceeded .numberOfTiles)] = .error e) ∧
    (∃ out, composeTiles false 0 [Except.error HeifError.CodecFailure] = .ok out) := by
  have h1 := tile_failure_handling 0
    [Except.error (HeifError.LimitExceeded .numberOfTiles)]
  have h2 := tile_failure_handling 0 [Except.error HeifError.CodecFailure]
  refine ⟨h1.1 false .numberOfTiles (by simp), ?_⟩
  apply h2.2.2.1.mpr
  intro e he
  simp at he
  exact Or.inl he

/-- A decoded raster with its geometry: row-major pixel rows. -/
structure heif_image where
  width : Nat
  height : Nat
  pixels : List (List Nat)
  deriving DecidableEq, Repr

/-- A transform property recorded on an item (spec §4.5 step 5): crop,
rotation by quarter turns, or mirroring. -/
inductive TransformOp where
  | crop (left top w h : Nat)
  | rotate (quarterTurns : Nat)
  | mirror (vertical : Bool)
  deriving DecidableEq, Repr

/-- One 90-degree rotation: the geometry swaps and the pixel matrix is
transposed after reversing each row. -/
def rotate90 (img : heif_image) : heif_image :=
  { width := img.height
    height := img.width
    pixels := (img.pixels.map List.reverse).transpose }

def rotateN : Nat → heif_image → heif_image
  | 0, img => img
  | k + 1, img => rotateN k (rotate90 img)

/-- Modelled from the spec: applying one recorded transform property
(§4.5 step 5; the transform stage is not under `src/`): crop to a
subrectangle, rotate by 90-degree multiples, or mirror. -/
def applyOp (img : heif_image) : TransformOp → heif_image
  | .crop left top w h =>
      { width := min w (img.width - left)
        height := min h (img.height - top)
        pixels := ((img.pixels.drop top).take h).map (fun row => (row.drop left).take w) }
  | .rotate k => rotateN (k % 4) img
  | .mirror vertical =>
      if vertical then { img with pixels := img.pixels.reverse }
      else { img with pixels := img.pixels.map List.reverse }

/-- The transform stage: apply the recorded transform properties in order. -/
def applyTransforms (ops : List TransformOp) (img : heif_image) : heif_image :=
  ops.foldl applyOp img

/-- An image item: the raster the codec produces and the transform
properties recorded on the item, in recorded order. -/
structure ImageItem where
  native : heif_image
  transformOps : List TransformOp
  deriving DecidableEq, Repr

/-- Modelled from the spec: the transform stage of `heif_decode_image`
(§4.5 step 5; implementation not under `src/`): the recorded crop, rotate and
mirror transforms are applied in recorded order, unless the caller suppressed
transforms via `ignore_transformations`, in which case the untransformed
raster with its untransformed geometry is returned. -/
def heif_decode_image (item : ImageItem) (opts : heif_decoding_options) : heif_image :=
  if opts.ignore_transformations then item.native
  else applyTransforms item.transformOps item.native

/-- A 2×1 raster with a mirror-then-crop transform chain, whose result
depends on the order the transforms are applied in. -/
def orderDemoItem : ImageItem :=
  { native := { width := 2, height := 1, pixels := [[1, 2]] }
    transformOps := [.mirror false, .crop 0 0 1 1] }

/-- C8: with transforms suppressed, `heif_decode_image` returns the
untransformed raster with its untransformed geometry; otherwise it applies
the recorded crop/rotate/mirror transforms in exactly the recorded order
(sequential composition, head first), and the order matters: applying the
demo item's transforms in reversed order yields a different raster. -/
theorem decode_transform_stage (item : ImageItem) (opts : heif_decoding_options) :
    (opts.ignore_transformations = true →
      heif_decode_image item opts = item.native) ∧
    (opts.ignore_transformations = false →
      heif_decode_image item opts = applyTransforms item.transformOps item.native) ∧
    (∀ (ops1 ops2 : List TransformOp) (img : heif_image),
      applyTransforms (ops1 ++ ops2) img
        = applyTransforms ops2 (applyTransforms ops1 img)) ∧
    (∀ (op : TransformOp) (ops : List TransformOp) (img : heif_image),
      applyTransforms (op :: ops) img = applyTransforms ops (applyOp img op)) ∧
    heif_decode_image orderDemoItem
        { version := 7, ignore_transformations := false, convert_hdr_to_8bit := false,
          strict_decoding := false }
      ≠ applyTransforms orderDemoItem.transformOps.reverse orderDemoItem.native := by
  refine ⟨?_, ?_, ?_, ?_, by decide⟩
  · intro h
    simp [heif_decode_image, h]
  · intro h
    simp [heif_decode_image, h]
  · intro ops1 ops2 img
    simp [applyTransforms, List.foldl_append]
  · intro op ops img
    rfl

/-- Witness for C8: decoding the demo item with transforms suppressed returns
its native raster. -/
theorem decode_transform_stage_witness :
    heif_decode_image orderDemoItem
        { version := 7, ignore_transformations := true, convert_hdr_to_8bit := false,
          strict_decoding := false }
      = orderDemoItem.native :=
  (decode_transform_stage orderDemoItem
    { version := 7, ignore_transformations := true, convert_hdr_to_8bit := false,
      strict_decoding := false }).1 rfl

/-- Modelled from the spec: the brand FourCCs known to the library (§6: a
file is recognized as a supported variant if any compatible brand is known;
the concrete list lives in the implementation, not under `src/`; these are
representative: heic, heix, hevc, avif, avis, mif1, msf1). -/
def heif_known_brands : List (List Nat) :=
  [[104, 101, 105, 99], [104, 101, 105, 120], [104, 101, 118, 99],
   [97, 118, 105, 102], [97, 118, 105, 115], [109, 105, 102, 49],
   [109, 115, 102, 49]]

/-- Split a byte list into complete 4-byte FourCC chunks. -/
def chunk4 : List Nat → List (List Nat)
  | a :: b :: c :: d :: rest => [a, b, c, d] :: chunk4 rest
  | _ => []

/-- Modelled from the spec: reading the compatible-brands list from data that
starts at the `ftyp` box (§6 binary layout; implementation not under `src/`):
4-byte size, the FourCC `ftyp`, 4-byte major brand, 4-byte minor version,
then compatible brands of 4 bytes each up to the declared box size. `none`
when the data is too short or not an `ftyp` box. -/
def parseFtypCompatibleBrands (bs : List Nat) : Option (List (List Nat)) :=
  if bs.length < 16 then none
  else if (bs.drop 4).take 4 ≠ [102, 116, 121, 112] then none
  else if beVal (bs.take 4) < 16 ∨ bs.length < beVal (bs.take 4) then none
  else some (chunk4 ((bs.drop 16).take (beVal (bs.take 4) - 16)))

/-- Modelled from the spec: `heif_has_compatible_filetype` (implementation
not under `src/`; the header documents: checks the compatible brands, ok iff
a supported brand is found). `true` stands for `heif_error_ok`. -/
def heif_has_compatible_filetype (bs : List Nat) : Bool :=
  match parseFtypCompatibleBrands bs with
  | none => false
  | some brands => brands.any (fun b => decide (b ∈ heif_known_brands))

/-- Modelled from the spec: `heif_has_compatible_brand` (implementation not
under `src/`; the header documents: 1 if the file includes the brand, 0 if
not, -1 on insufficient data, -2 on other errors). -/
def heif_has_compatible_brand (bs : List Nat) (brand : List Nat) : Int :=
  if bs.length < 16 then -1
  else
    match parseFtypCompatibleBrands bs with
    | none => -2
    | some brands => if brand ∈ brands then 1 else 0

/-- C9: when the `ftyp` data parses, `heif_has_compatible_filetype` reports
ok exactly when some compatible brand is known to the library, and
`heif_has_compatible_brand` returns 1 exactly when the compatible-brands
list contains the queried brand and 0 exactly when it does not. -/
theorem compatible_brand_check (bs : List Nat) (brand : List Nat)
    (brands : List (List Nat))
    (hparse : parseFtypCompatibleBrands bs = some brands) :
    (heif_has_compatible_filetype bs = true ↔
      ∃ b ∈ brands, b ∈ heif_known_brands) ∧
    (heif_has_compatible_brand bs brand = 1 ↔ brand ∈ brands) ∧
    (heif_has_compatible_brand bs brand = 0 ↔ brand ∉ brands) := by
  have h16 : ¬ bs.length < 16 := by
    intro hlt
    unfold parseFtypCompatibleBrands at hparse
    rw [if_pos hlt] at hparse
    exact absurd hparse (by simp)
  refine ⟨?_, ?_, ?_⟩
  · unfold heif_has_compatible_filetype
    rw [hparse]
    simp [List.any_eq_true]
  · unfold heif_has_compatible_brand
    rw [if_neg h16, hparse]
    by_cases hm : brand ∈ brands <;> simp [hm]
  · unfold heif_has_compatible_brand
    rw [if_neg h16, hparse]
    by_cases hm : brand ∈ brands <;> simp [hm]

/-- A concrete `ftyp` box: size 24, major brand `heic`, minor version 0,
compatible brands `mif1` and `heic`. -/
def exampleFtyp : List Nat :=
  [0, 0, 0, 24, 102, 116, 121, 112, 104, 101, 105, 99, 0, 0, 0, 0,
   109, 105, 102, 49, 104, 101, 105, 99]

/-- Witness for C9 on the concrete `ftyp` box: the filetype is compatible,
`heic` is found, `avif` is not. -/
theorem compatible_brand_check_witness :
    heif_has_compatible_filetype exampleFtyp = true ∧
    heif_has_compatible_brand exampleFtyp [104, 101, 105, 99] = 1 ∧
    heif_has_compatible_brand exampleFtyp [97, 118, 105, 102] = 0 := by
  have h := compatible_brand_check exampleFtyp [104, 101, 105, 99]
    [[109, 105, 102, 49], [104, 101, 105, 99]] (by decide)
  have h2 := compatible_brand_check exampleFtyp [97, 118, 105, 102]
    [[109, 105, 102, 49], [104, 101, 105, 99]] (by decide)
  exact ⟨h.1.mpr (by decide), h.2.1.mpr (by decide), h2.2.2.mpr (by decide)⟩
